import Mathlib

/-!
Verification development for the multicache S3-FIFO shard (the in-memory,
sharded key-value cache) and the localfs durable store.

The cache model below is a direct shallow embedding of the shard layer of the
source (`entry`, `entryList`, `ghostFreqRing`, `shard` with its operations
`get`, `setWithHash`, `delete`, `flush`, `evictFromSmall`, `evictFromMain`,
`sendToDeathRow`, `resurrectFromDeathRow`, `addToGhost`).  Entries are
heap-allocated records addressed by natural-number ids (the `heap` list plays
the role of the Go heap; an entry's `prev`/`next` pointers are `Option Nat`
ids).  The intrusive doubly-linked lists are transcribed operation by
operation, including their behaviour on entries that are not actually linked
into the list.  Wall-clock time is an explicit `now : Int` parameter
(nanoseconds); machine integers that can go negative (`entryList.len`,
`totalEntries`) are `Int`.

We model a single shard.  In the source, a cache of capacity 1..1023 has
exactly one shard whose per-shard capacity equals the cache capacity, and the
global atomic entry counter and cache capacity read by `setWithHash` then
coincide with the shard's; the model therefore keeps `totalEntries` and
`capacity` on the shard.

The `bloomFilter` type used for the ghost queue and the `hashInt64` integer
hash are referenced but not defined in the available source; the bloom filter
is modelled from the spec as an exact set of hashes with an insertion counter
(its false positives only influence which admission branch is taken, which no
theorem below depends on), and the hash function is an explicit parameter of
the operations that need it.

The eviction loops are encoded with an explicit fuel parameter; both loops in
the source terminate (each iteration either returns or strictly decreases the
sum of the frequencies plus the number of warm entries ahead of the cursor),
and the fuel supplied by the wrappers is far above those bounds for every
state exercised here.  All loop theorems are stated for arbitrary fuel.
-/

namespace Multicache

/-- Cap on the frequency counter; the source sets `maxFreq = 7`. -/
def maxFreq : Nat := 7

/-- Cached key-value pair with eviction metadata; mirrors the source's
`entry[K, V]` struct, with the `prev`/`next` intrusive pointers modelled as
optional heap ids. -/
structure Entry (K V : Type) where
  key : K
  value : V
  hash : Nat
  expiryNano : Int
  freq : Nat
  peakFreq : Nat
  inSmall : Bool
  onDeathRow : Bool
  prev : Option Nat
  next : Option Nat
deriving Repr

/-- Intrusive doubly-linked list header; mirrors the source's
`entryList[K, V]` (head, tail, len).  `len` is an `Int` because the source's
`int` field is decremented unconditionally by `remove`. -/
structure EntryList where
  head : Option Nat := none
  tail : Option Nat := none
  len : Int := 0
deriving Repr, DecidableEq

/-- Heap read: the entry stored at id `i`, if allocated. -/
def heapGet (heap : List (Entry K V)) (i : Nat) : Option (Entry K V) :=
  heap[i]?

/-- Heap write: replace the entry at id `i` by `f` of its current value (a
no-op on unallocated ids, which the source never produces). -/
def updateEntry (heap : List (Entry K V)) (i : Nat) (f : Entry K V → Entry K V) :
    List (Entry K V) :=
  match heap[i]? with
  | some e => heap.set i (f e)
  | none => heap

/-- Transcription of `entryList.pushBack`: link entry `i` at the tail. -/
def pushBack (heap : List (Entry K V)) (l : EntryList) (i : Nat) :
    List (Entry K V) × EntryList :=
  let heap1 := updateEntry heap i (fun e => { e with prev := l.tail, next := none })
  match l.tail with
  | some t =>
      (updateEntry heap1 t (fun e => { e with next := some i }),
       { l with tail := some i, len := l.len + 1 })
  | none =>
      (heap1, { head := some i, tail := some i, len := l.len + 1 })

/-- Transcription of `entryList.remove`: unlink entry `i`, following the
source's statement order exactly (in particular, on an entry whose `prev` and
`next` are both `none` it sets `head` and `tail` to `none` and decrements
`len`, whether or not the entry is actually linked into this list). -/
def removeFromList (heap : List (Entry K V)) (l : EntryList) (i : Nat) :
    List (Entry K V) × EntryList :=
  match heapGet heap i with
  | none => (heap, l)
  | some e =>
    let step1 : List (Entry K V) × EntryList :=
      match e.prev with
      | some p => (updateEntry heap p (fun x => { x with next := e.next }), l)
      | none => (heap, { l with head := e.next })
    let step2 : List (Entry K V) × EntryList :=
      match e.next with
      | some nx => (updateEntry step1.1 nx (fun x => { x with prev := e.prev }), step1.2)
      | none => (step1.1, { step1.2 with tail := e.prev })
    (updateEntry step2.1 i (fun x => { x with prev := none, next := none }),
     { step2.2 with len := step2.2.len - 1 })

/-- Fixed 256-slot ring of (hash, peakFreq) pairs; mirrors the source's
`ghostFreqRing` (the `uint8` position wraps at 256). -/
structure GhostFreqRing where
  hashes : List Nat
  freqs : List Nat
  pos : Nat
deriving Repr, DecidableEq

/-- Zero value of the ring: all slots hold hash 0 / freq 0. -/
def GhostFreqRing.zero : GhostFreqRing :=
  { hashes := List.replicate 256 0, freqs := List.replicate 256 0, pos := 0 }

/-- Transcription of `ghostFreqRing.add`. -/
def GhostFreqRing.add (r : GhostFreqRing) (h : Nat) (freq : Nat) : GhostFreqRing :=
  { hashes := r.hashes.set r.pos h
    freqs := r.freqs.set r.pos freq
    pos := (r.pos + 1) % 256 }

/-- Transcription of `ghostFreqRing.lookup`: scan the slots in order and
return the frequency of the first slot whose hash matches. -/
def GhostFreqRing.lookup (r : GhostFreqRing) (h : Nat) : Option Nat :=
  ((r.hashes.zip r.freqs).find? (fun p => decide (p.1 = h))).map (fun p => p.2)

/-- Modelled from the spec: the `bloomFilter` type is not among the available
source files.  The spec describes a filter with `Add`, `Contains`, `Reset`
and an insertion counter `entries` used for the active/aging rotation; it is
modelled here as an exact set of hashes (no false positives — they would only
flip the admission branch, which no theorem here depends on). -/
structure BloomFilter where
  hashes : List Nat
  entries : Nat
deriving Repr, DecidableEq

/-- Empty (reset) bloom filter. -/
def BloomFilter.reset : BloomFilter := { hashes := [], entries := 0 }

/-- Membership test of the modelled bloom filter. -/
def BloomFilter.containsHash (b : BloomFilter) (h : Nat) : Bool :=
  b.hashes.contains h

/-- Insertion into the modelled bloom filter. -/
def BloomFilter.addHash (b : BloomFilter) (h : Nat) : BloomFilter :=
  { hashes := h :: b.hashes, entries := b.entries + 1 }

/-- Lock-free key→entry map, modelled as an association list from key to heap
id (`xsync.MapOf` in the source); lookup returns the first binding. -/
def mapLoad [DecidableEq K] : List (K × Nat) → K → Option Nat
  | [], _ => none
  | (k1, v) :: rest, k => if k1 = k then some v else mapLoad rest k

/-- Map upsert (`entries.Store`). -/
def mapStore [DecidableEq K] : List (K × Nat) → K → Nat → List (K × Nat)
  | [], k, v => [(k, v)]
  | (k1, v1) :: rest, k, v =>
      if k1 = k then (k, v) :: rest else (k1, v1) :: mapStore rest k v

/-- Map removal (`entries.Delete`). -/
def mapDelete [DecidableEq K] : List (K × Nat) → K → List (K × Nat)
  | [], _ => []
  | (k1, v1) :: rest, k =>
      if k1 = k then rest else (k1, v1) :: mapDelete rest k

/-- One partition of the cache; mirrors the source's `shard[K, V]` state that
the claims touch.  `totalEntries` and `capacity` stand for the parent cache's
global entry counter and configured capacity, which coincide with the shard's
own in the single-shard configuration (see the file comment). -/
structure Shard (K V : Type) where
  heap : List (Entry K V)
  entries : List (K × Nat)
  small : EntryList
  main : EntryList
  ghostActive : BloomFilter
  ghostAging : BloomFilter
  ghostFreqRng : GhostFreqRing
  ghostCap : Nat
  deathRow : List (Option Nat)
  deathRowPos : Nat
  capacity : Nat
  smallThresh : Nat
  warmupComplete : Bool
  totalEntries : Int

/-- Freshly constructed shard of the given capacity, as `newS3FIFO` builds it
(small threshold `capacity * 247 / 1000`, ghost capacity = capacity, empty
filters, zeroed ring, 8 empty death-row slots). -/
def newShard (K V : Type) (capacity : Nat) : Shard K V :=
  { heap := []
    entries := []
    small := {}
    main := {}
    ghostActive := BloomFilter.reset
    ghostAging := BloomFilter.reset
    ghostFreqRng := GhostFreqRing.zero
    ghostCap := capacity
    deathRow := List.replicate 8 none
    deathRowPos := 0
    capacity := capacity
    smallThresh := capacity * 247 / 1000
    warmupComplete := false
    totalEntries := 0 }

/-- Transcription of `shard.addToGhost`: record an evicted hash in the active
filter (and its peak frequency in the ring when ≥ 2), then rotate the filters
when the active one reaches `ghostCap`. -/
def addToGhost [DecidableEq K] (s : Shard K V) (h : Nat) (peakFreq : Nat) : Shard K V :=
  let s1 :=
    if s.ghostActive.containsHash h then s
    else
      let s2 := { s with ghostActive := s.ghostActive.addHash h }
      if peakFreq ≥ 2 then
        { s2 with ghostFreqRng := s2.ghostFreqRng.add h peakFreq }
      else s2
  if s1.ghostActive.entries ≥ s1.ghostCap then
    { s1 with ghostActive := BloomFilter.reset, ghostAging := s1.ghostActive }
  else s1

/-- Transcription of `shard.sendToDeathRow`: if the target slot holds an old
entry, truly evict it (drop it from the map, record it in the ghost, clear
its flag); then park entry `i` in the slot, advance the position modulo 8 and
decrement the global live count. -/
def sendToDeathRow [DecidableEq K] (s : Shard K V) (i : Nat) : Shard K V :=
  let s1 :=
    match s.deathRow.getD s.deathRowPos none with
    | some oldId =>
      match heapGet s.heap oldId with
      | some o =>
          let sA := { s with entries := mapDelete s.entries o.key }
          let sB := addToGhost sA o.hash o.peakFreq
          { sB with heap := updateEntry sB.heap oldId (fun x => { x with onDeathRow := false }) }
      | none => s
    | none => s
  { s1 with
    heap := updateEntry s1.heap i (fun x => { x with onDeathRow := true })
    deathRow := s1.deathRow.set s1.deathRowPos (some i)
    deathRowPos := (s1.deathRowPos + 1) % s1.deathRow.length
    totalEntries := s1.totalEntries - 1 }

/-- Transcription of `shard.evictFromMain` with explicit fuel: evict the
cold head (`freq = 0`) — demoting it to Small when `peakFreq ≥ 4` — or cycle
a warm head with its frequency decremented. -/
def evictFromMain [DecidableEq K] : Nat → Shard K V → Shard K V
  | 0, s => s
  | fuel + 1, s =>
    if s.main.len > 0 then
      match s.main.head with
      | some i =>
        match heapGet s.heap i with
        | some e =>
          if e.freq = 0 then
            let rm := removeFromList s.heap s.main i
            let s1 := { s with heap := rm.1, main := rm.2 }
            if e.peakFreq ≥ 4 then
              let heap2 := updateEntry s1.heap i (fun x => { x with freq := 1, inSmall := true })
              let pb := pushBack heap2 s1.small i
              { s1 with heap := pb.1, small := pb.2 }
            else
              sendToDeathRow s1 i
          else
            let rm := removeFromList s.heap s.main i
            let heap2 := updateEntry rm.1 i (fun x => { x with freq := e.freq - 1 })
            let pb := pushBack heap2 rm.2 i
            evictFromMain fuel { s with heap := pb.1, main := pb.2 }
        | none => s
      | none => s
    else s

/-- Transcription of `shard.evictFromSmall` with explicit fuel: send a cold
head (`freq < 2`) to death row and stop, or promote a warm head to Main with
its frequency reset, run `evictFromMain` when Main exceeds 90% of the shard
capacity, and keep looping over the remaining Small queue. -/
def evictFromSmall [DecidableEq K] : Nat → Shard K V → Shard K V
  | 0, s => s
  | fuel + 1, s =>
    let mcap : Int := ((s.capacity * 9) / 10 : Nat)
    if s.small.len > 0 then
      match s.small.head with
      | some i =>
        match heapGet s.heap i with
        | some e =>
          if e.freq < 2 then
            let rm := removeFromList s.heap s.small i
            sendToDeathRow { s with heap := rm.1, small := rm.2 } i
          else
            let rm := removeFromList s.heap s.small i
            let heap2 := updateEntry rm.1 i (fun x => { x with freq := 0, inSmall := false })
            let pb := pushBack heap2 s.main i
            let s1 := { s with heap := pb.1, small := rm.2, main := pb.2 }
            let s2 := if s1.main.len > mcap then evictFromMain fuel s1 else s1
            evictFromSmall fuel s2
        | none => s
      | none => s
    else s

/-- Ample fuel for the eviction loops started by one `set` (see the file
comment: the loops' true iteration counts are bounded by small multiples of
the number of allocated entries). -/
def evictFuel (s : Shard K V) : Nat := 8 * s.heap.length + 8

/-- Frequency bump performed on a hit (`freq.Add(1)` capped at `maxFreq`,
raising `peakFreq` when exceeded). -/
def bumpFreq (e : Entry K V) : Entry K V :=
  if e.freq < maxFreq then
    let newFreq := e.freq + 1
    if newFreq > e.peakFreq then { e with freq := newFreq, peakFreq := newFreq }
    else { e with freq := newFreq }
  else e

/-- Replace the first death-row slot holding id `i` by an empty slot (the
slot-clearing loop of `resurrectFromDeathRow`). -/
def clearFirstSlot : List (Option Nat) → Nat → List (Option Nat)
  | [], _ => []
  | slot :: rest, i =>
      if slot = some i then none :: rest else slot :: clearFirstSlot rest i

/-- Transcription of `shard.resurrectFromDeathRow`: bring the keyed entry
back from pending eviction into Main with `freq = peakFreq = 3`, clearing its
death-row slot and incrementing the global live count. -/
def resurrectFromDeathRow [DecidableEq K] [Inhabited V] (s : Shard K V) (key : K) :
    (V × Bool) × Shard K V :=
  match mapLoad s.entries key with
  | none => ((default, false), s)
  | some i =>
    match heapGet s.heap i with
    | none => ((default, false), s)
    | some e =>
      if e.onDeathRow then
        let dr := clearFirstSlot s.deathRow i
        let heap1 := updateEntry s.heap i
          (fun x => { x with onDeathRow := false, inSmall := false, freq := 3, peakFreq := 3 })
        let pb := pushBack heap1 s.main i
        let s1 :=
          { s with
            heap := pb.1
            deathRow := dr
            main := pb.2
            totalEntries := s.totalEntries + 1 }
        ((e.value, true), s1)
      else ((default, true), s)

/-- Transcription of `shard.get` (with the wall clock as the explicit `now`
argument): death-row entries are resurrected, expired entries report a miss,
and a hit bumps the frequency and returns the value. -/
def Shard.get [DecidableEq K] [Inhabited V] (s : Shard K V) (now : Int) (key : K) :
    (V × Bool) × Shard K V :=
  match mapLoad s.entries key with
  | none => ((default, false), s)
  | some i =>
    match heapGet s.heap i with
    | none => ((default, false), s)
    | some e =>
      if e.onDeathRow then resurrectFromDeathRow s key
      else if e.expiryNano ≠ 0 ∧ now > e.expiryNano then ((default, false), s)
      else ((e.value, true), { s with heap := updateEntry s.heap i bumpFreq })

/-- Warmup-path insert of `setWithHash` (the cache has not yet filled):
mark the new entry as Small, push it to Small's tail, add it to the map and
bump the global live count. -/
def warmupInsert [DecidableEq K] (s0 : Shard K V) (key : K) (newId : Nat) : Shard K V :=
  let heap1 := updateEntry s0.heap newId (fun x => { x with inSmall := true })
  let pb := pushBack heap1 s0.small newId
  { s0 with
    heap := pb.1
    small := pb.2
    entries := mapStore s0.entries key newId
    totalEntries := s0.totalEntries + 1 }

/-- Full-cache admission part of `setWithHash`: consult the ghost filters to
route the new entry (restoring its ghost frequency on a hit), then run one
eviction pass — from Main when Main is non-empty and Small is at or below
its threshold, else from Small when Small is non-empty. -/
def ghostAdmitAndEvict [DecidableEq K] (s1 : Shard K V) (h : Nat) (newId : Nat) : Shard K V :=
  let inGhost := s1.ghostActive.containsHash h || s1.ghostAging.containsHash h
  let admitUpd := fun (x : Entry K V) => { x with inSmall := !inGhost }
  let sA := { s1 with heap := updateEntry s1.heap newId admitUpd }
  let sB :=
    if inGhost then
      match sA.ghostFreqRng.lookup h with
      | some peak =>
          let restoreUpd := fun (x : Entry K V) => { x with freq := peak, peakFreq := peak }
          { sA with heap := updateEntry sA.heap newId restoreUpd }
      | none => sA
    else sA
  if sB.main.len > 0 && sB.small.len ≤ (sB.smallThresh : Int) then
    evictFromMain (evictFuel sB) sB
  else if sB.small.len > 0 then
    evictFromSmall (evictFuel sB) sB
  else sB

/-- Final insert of `setWithHash` for a new key: push the new entry to the
queue named by its (possibly eviction-updated) `inSmall` flag, add it to the
map, bump the global live count. -/
def finishInsert [DecidableEq K] (s2 : Shard K V) (ent : Entry K V)
    (key : K) (newId : Nat) : Shard K V :=
  let entNow := (heapGet s2.heap newId).getD ent
  let s3 :=
    if entNow.inSmall then
      let pb := pushBack s2.heap s2.small newId
      { s2 with heap := pb.1, small := pb.2 }
    else
      let pb := pushBack s2.heap s2.main newId
      { s2 with heap := pb.1, main := pb.2 }
  { s3 with
    entries := mapStore s3.entries key newId
    totalEntries := s3.totalEntries + 1 }

/-- Transcription of `shard.setWithHash`: update an existing entry in place,
or create a new entry, admit it to Small or (on a ghost hit) to Main with its
ghost frequency restored, triggering one eviction pass when the cache is
full.  The phases of the new-key path are the named definitions above,
composed exactly as the source's single function body. -/
def setWithHash [DecidableEq K] (hasher : K → Nat) (s : Shard K V)
    (key : K) (value : V) (expiryNano : Int) (hash : Nat) : Shard K V :=
  match mapLoad s.entries key with
  | some i =>
      let upd := fun (e : Entry K V) => bumpFreq { e with value := value, expiryNano := expiryNano }
      { s with heap := updateEntry s.heap i upd }
  | none =>
    let h := if hash = 0 then hasher key else hash
    let newId := s.heap.length
    let ent : Entry K V :=
      { key := key, value := value, hash := h, expiryNano := expiryNano,
        freq := 0, peakFreq := 0, inSmall := false, onDeathRow := false,
        prev := none, next := none }
    let s0 := { s with heap := s.heap ++ [ent] }
    let full := s0.totalEntries ≥ (s0.capacity : Int)
    if ¬ s0.warmupComplete ∧ ¬ full then
      warmupInsert s0 key newId
    else
      let s1 := { s0 with warmupComplete := true }
      let s2 :=
        if full then ghostAdmitAndEvict s1 h newId
        else { s1 with heap := updateEntry s1.heap newId (fun x => { x with inSmall := true }) }
      finishInsert s2 ent key newId

/-- Cache-level `set` of an integer-hashed key: the source passes hash 0 and
lets the shard compute it on demand. -/
def Shard.set [DecidableEq K] (hasher : K → Nat) (s : Shard K V)
    (key : K) (value : V) (expiryNano : Int) : Shard K V :=
  setWithHash hasher s key value expiryNano 0

/-- Transcription of `shard.delete`: unlink the entry from the queue named by
its `inSmall` flag, drop it from the map and decrement the global live count
(the source performs no death-row check here). -/
def Shard.delete [DecidableEq K] (s : Shard K V) (key : K) : Shard K V :=
  match mapLoad s.entries key with
  | none => s
  | some i =>
    match heapGet s.heap i with
    | none => s
    | some e =>
      let s1 :=
        if e.inSmall then
          let rm := removeFromList s.heap s.small i
          { s with heap := rm.1, small := rm.2 }
        else
          let rm := removeFromList s.heap s.main i
          { s with heap := rm.1, main := rm.2 }
      { s1 with
        entries := mapDelete s1.entries key
        totalEntries := s1.totalEntries - 1 }

/-- Transcription of `shard.flush` (combined with the cache's zeroing of the
global counter): clear the map and queues, reset the ghost state and death
row.  The heap is untouched — freeing the old entries is the collector's
job in the source. -/
def Shard.flush (s : Shard K V) : Shard K V :=
  { s with
    entries := []
    small := {}
    main := {}
    ghostActive := BloomFilter.reset
    ghostAging := BloomFilter.reset
    ghostFreqRng := GhostFreqRing.zero
    deathRow := List.replicate s.deathRow.length none
    deathRowPos := 0
    totalEntries := 0 }

/-- Public operations of the shard, as issued sequentially by the cache. -/
inductive CacheOp (K V : Type) where
  | set (key : K) (value : V) (expiryNano : Int)
  | get (now : Int) (key : K)
  | del (key : K)
  | flush

/-- One public operation applied to a shard. -/
def stepOp [DecidableEq K] [Inhabited V] (hasher : K → Nat) (s : Shard K V) :
    CacheOp K V → Shard K V
  | .set k v e => Shard.set hasher s k v e
  | .get now k => (Shard.get s now k).2
  | .del k => Shard.delete s k
  | .flush => Shard.flush s

/-- A sequence of public operations applied to a shard. -/
def runOps [DecidableEq K] [Inhabited V] (hasher : K → Nat) (s : Shard K V)
    (ops : List (CacheOp K V)) : Shard K V :=
  ops.foldl (stepOp hasher) s

/-- Ids reachable from an optional head pointer by following `next` links,
with fuel bounding the walk (one more than the heap size suffices for any
well-formed list). -/
def walkList (heap : List (Entry K V)) : Nat → Option Nat → List Nat
  | 0, _ => []
  | _, none => []
  | fuel + 1, some i =>
      i :: (match heapGet heap i with
            | some e => walkList heap fuel e.next
            | none => [])

/-- The ids currently linked into a queue of the shard (reachable from its
head). -/
def listIds (s : Shard K V) (l : EntryList) : List Nat :=
  walkList s.heap (s.heap.length + 1) l.head

/-- The ids currently parked in occupied death-row slots. -/
def deathRowIds (s : Shard K V) : List Nat :=
  s.deathRow.filterMap (fun slot => slot)

/-- How many of the three locations (Small queue, Main queue, death row)
currently hold id `i`. -/
def locationCount (s : Shard K V) (i : Nat) : Nat :=
  (if (listIds s s.small).contains i then 1 else 0) +
  (if (listIds s s.main).contains i then 1 else 0) +
  (if (deathRowIds s).contains i then 1 else 0)

/-- Executable check of the structural invariant of the spec: every key in
the shard's map has its entry in exactly one of Small, Main and death row,
and no death-row entry is linked into Small or Main. -/
def shardInvariantCheck (s : Shard K V) : Bool :=
  s.entries.all (fun p => locationCount s p.2 == 1) &&
  (deathRowIds s).all
    (fun i => !((listIds s s.small).contains i) && !((listIds s s.main).contains i))

/-- Frequency bounds of one entry: `0 ≤ freq ≤ maxFreq` and
`freq ≤ peakFreq ≤ maxFreq` (the lower bound is inherent in `Nat`). -/
def FreqInvE (e : Entry K V) : Prop :=
  e.freq ≤ maxFreq ∧ e.freq ≤ e.peakFreq ∧ e.peakFreq ≤ maxFreq

/-- Frequency bounds of every allocated entry. -/
def HeapFreqInv (heap : List (Entry K V)) : Prop :=
  ∀ e ∈ heap, FreqInvE e

/-- Every frequency recorded in the ghost ring is within the cap. -/
def RingFreqInv (r : GhostFreqRing) : Prop :=
  ∀ f ∈ r.freqs, f ≤ maxFreq

/-- Frequency bounds of a whole shard state: all allocated entries and all
ghost-ring slots are within the cap. -/
def FreqInv (s : Shard K V) : Prop :=
  HeapFreqInv s.heap ∧ RingFreqInv s.ghostFreqRng

/-- Frequency fields of an entry, used to state that the list-link
operations do not disturb them. -/
def freqPair (e : Entry K V) : Nat × Nat :=
  (e.freq, e.peakFreq)

/-- Loop body of `evictFromSmall` in the warm case, named so the loop's
step behaviour can be stated: unlink the head from Small, reset its
frequency, clear `inSmall`, push it to Main's tail, and run `evictFromMain`
(with the given fuel) when Main now exceeds 90% of the shard capacity. -/
def promoteStep [DecidableEq K] (fuel : Nat) (s : Shard K V) (i : Nat) : Shard K V :=
  let rm := removeFromList s.heap s.small i
  let heap2 := updateEntry rm.1 i (fun x => { x with freq := 0, inSmall := false })
  let pb := pushBack heap2 s.main i
  let s1 := { s with heap := pb.1, small := rm.2, main := pb.2 }
  if s1.main.len > (((s.capacity * 9) / 10 : Nat) : Int) then evictFromMain fuel s1 else s1

/-- Result of the demotion branch of `evictFromMain`, named so the branch
behaviour can be stated: unlink the head from Main, set its frequency to 1
and its `inSmall` flag, and push it to Small's tail. -/
def demoteResult [DecidableEq K] (s : Shard K V) (i : Nat) : Shard K V :=
  let rm := removeFromList s.heap s.main i
  let s1 := { s with heap := rm.1, main := rm.2 }
  let heap2 := updateEntry s1.heap i (fun x => { x with freq := 1, inSmall := true })
  let pb := pushBack heap2 s1.small i
  { s1 with heap := pb.1, small := pb.2 }

/-- Result of the second-chance branch of `evictFromMain` for a head of
frequency `f > 0`: unlink it, decrement its frequency, push it back to
Main's tail. -/
def secondChanceStep [DecidableEq K] (s : Shard K V) (i : Nat) (f : Nat) : Shard K V :=
  let rm := removeFromList s.heap s.main i
  let heap2 := updateEntry rm.1 i (fun x => { x with freq := f - 1 })
  let pb := pushBack heap2 rm.2 i
  { s with heap := pb.1, main := pb.2 }

/-- Result of the cold branch of `evictFromSmall`: unlink the head from
Small and send it to death row. -/
def smallColdResult [DecidableEq K] (s : Shard K V) (i : Nat) : Shard K V :=
  let rm := removeFromList s.heap s.small i
  sendToDeathRow { s with heap := rm.1, small := rm.2 } i

/-- Result of the cold, non-demotable branch of `evictFromMain`: unlink the
head from Main and send it to death row. -/
def mainColdResult [DecidableEq K] (s : Shard K V) (i : Nat) : Shard K V :=
  let rm := removeFromList s.heap s.main i
  sendToDeathRow { s with heap := rm.1, main := rm.2 } i

/-- Field update applied by `resurrectFromDeathRow` to the resurrected
entry. -/
def resurrectUpd (x : Entry K V) : Entry K V :=
  { x with onDeathRow := false, inSmall := false, freq := 3, peakFreq := 3 }

end Multicache

namespace Localfs

/-!
Shallow embedding of the localfs durable store (`Store[K, V]`).  Keys are
taken in their textual form (`fmt.Sprintf` output) as lists of characters;
Go's `len(s)` is the UTF-8 byte length and its `range` loop iterates over
characters, both transcribed below.  The filesystem behind `Get` is
abstracted to a map from key to the state of that key's record file: absent,
present-but-undecodable, or present with a decoded entry; file opens,
closes and removals are modelled as succeeding (only the decode step's
failure behaviour is claimed about).  `time.Time` expiry values are
modelled as `Option Int` nanoseconds, `none` standing for the zero instant
("no expiry"), and `time.Now().After e` as strict `>`.
-/

/-- Maximum key length in bytes (the source's `maxKeyLength = 127`). -/
def maxKeyLength : Nat := 127

/-- Validation failure: the key is over-long or holds a character outside
the allowed set. -/
inductive KeyErr where
  | tooLong
  | invalidChar (c : Char)
deriving Repr, DecidableEq

/-- Transcription of the per-character rejection test of `ValidateKey`: a
character is invalid when it is not a letter, digit, dash, underscore,
period or colon. -/
def invalidCharB (ch : Char) : Bool :=
  (decide (ch < 'a') || decide ('z' < ch)) &&
  (decide (ch < 'A') || decide ('Z' < ch)) &&
  (decide (ch < '0') || decide ('9' < ch)) &&
  decide (ch ≠ '-') && decide (ch ≠ '_') && decide (ch ≠ '.') && decide (ch ≠ ':')

/-- First invalid character of the key, if any (the `for … range` loop of
`ValidateKey` returns on the first offender). -/
def findInvalidChar : List Char → Option Char
  | [] => none
  | c :: rest => if invalidCharB c then some c else findInvalidChar rest

/-- Byte length of the key's textual form (Go's `len` of a string). -/
def goLen (key : List Char) : Nat :=
  (key.map Char.utf8Size).sum

/-- Transcription of `Store.ValidateKey`: reject keys longer than 127 bytes,
then reject the first character outside the allowed set; accept otherwise. -/
def ValidateKey (key : List Char) : Except KeyErr Unit :=
  if goLen key > maxKeyLength then Except.error KeyErr.tooLong
  else
    match findInvalidChar key with
    | some c => Except.error (KeyErr.invalidChar c)
    | none => Except.ok ()

/-- Decoded on-disk record (`Entry[K, V]` of the store). -/
structure StoreEntry (K V : Type) where
  key : K
  value : V
  expiry : Option Int
  updatedAt : Int
deriving Repr

/-- State of one key's record file on disk. -/
inductive FileState (K V : Type) where
  | absent
  | corrupt
  | stored (e : StoreEntry K V)

/-- Error surfaced by the store's `Get`; only the decode failure is modelled
(see the namespace comment). -/
inductive StoreErr where
  | decodeFailed
deriving Repr, DecidableEq

/-- Result quadruple of the store's `Get`. -/
structure GetResult (V : Type) where
  value : V
  expiry : Option Int
  found : Bool
  err : Option StoreErr
deriving Repr

/-- Transcription of `Store.Get` over the abstract filesystem: a missing
file is a silent miss; an undecodable file is removed and reported as a miss
carrying the (joined) decode error; a decoded but expired record is removed
and reported as a silent miss; otherwise the value and expiry are returned.
The second component is the filesystem after the call. -/
def Get [DecidableEq K] [Inhabited V] (fs : K → FileState K V) (now : Int) (key : K) :
    GetResult V × (K → FileState K V) :=
  match fs key with
  | .absent => ({ value := default, expiry := none, found := false, err := none }, fs)
  | .corrupt =>
      ({ value := default, expiry := none, found := false, err := some .decodeFailed },
       fun k => if k = key then .absent else fs k)
  | .stored e =>
      match e.expiry with
      | some t =>
          if now > t then
            ({ value := default, expiry := none, found := false, err := none },
             fun k => if k = key then .absent else fs k)
          else
            ({ value := e.value, expiry := e.expiry, found := true, err := none }, fs)
      | none =>
          ({ value := e.value, expiry := e.expiry, found := true, err := none }, fs)

end Localfs

namespace Multicache

/-- Modelled from the spec: the integer hash (`hashInt64`) is not among the
available source files; the spec only requires some fixed 64-bit mixing
function, and no claim below depends on its values, so concrete runs use
this stand-in. -/
def natHasher : Nat → Nat := fun k => k + 1000

/-- Capacity-1 shard after `set 1 11 (expiry 5)` then `set 2 22 (no expiry)`:
the second set fills the cache, evicts the cold key 1 to death row and admits
key 2 to Small.  Key 1's entry still carries `expiryNano = 5`. -/
def sC1pre : Shard Nat Nat :=
  runOps natHasher (newShard Nat Nat 1) [.set 1 11 5, .set 2 22 0]

/-- Live (not on death row) entry with `expiryNano = 5`, for the witness of
the amended expiry claim. -/
def eC1w : Entry Nat Nat :=
  { key := 1, value := 11, hash := 9, expiryNano := 5, freq := 0, peakFreq := 0,
    inSmall := true, onDeathRow := false, prev := none, next := none }

/-- Shard holding `eC1w` as its only entry, linked into Small. -/
def sC1w : Shard Nat Nat :=
  { newShard Nat Nat 4 with
    heap := [eC1w]
    entries := [(1, 0)]
    small := { head := some 0, tail := some 0, len := 1 }
    totalEntries := 1 }

/-- Capacity-1 shard after `set 1 11 0` then `set 2 22 0`: key 1 (heap id 0)
is on death row, key 2 (heap id 1) is live in Small. -/
def sC2pre : Shard Nat Nat :=
  runOps natHasher (newShard Nat Nat 1) [.set 1 11 0, .set 2 22 0]

/-- Same construction as `sC2pre`, used for the capacity claim: a full,
warmed-up capacity-1 shard with one live entry and key 1 on death row. -/
def sC3pre : Shard Nat Nat :=
  runOps natHasher (newShard Nat Nat 1) [.set 1 11 0, .set 2 22 0]

/-- Main-queue resident of the `sC4` state (cold, never accessed). -/
def eC4m : Entry Nat Nat :=
  { key := 100, value := 0, hash := 1100, expiryNano := 0, freq := 0, peakFreq := 0,
    inSmall := false, onDeathRow := false, prev := none, next := none }

/-- Warm head of Small in the `sC4` state (`freq = 2`). -/
def eC4a : Entry Nat Nat :=
  { key := 101, value := 1, hash := 1101, expiryNano := 0, freq := 2, peakFreq := 2,
    inSmall := true, onDeathRow := false, prev := none, next := some 2 }

/-- Cold second element of Small in the `sC4` state (`freq = 0`). -/
def eC4b : Entry Nat Nat :=
  { key := 102, value := 2, hash := 1102, expiryNano := 0, freq := 0, peakFreq := 0,
    inSmall := true, onDeathRow := false, prev := some 1, next := none }

/-- Well-formed capacity-2 shard (90% threshold = 1) with Main = [id 0] and
Small = [id 1, id 2]: promoting the warm head id 1 pushes Main above the
threshold, so `evictFromSmall` triggers `evictFromMain` on its first
iteration while id 2 is still in Small. -/
def sC4 : Shard Nat Nat :=
  { newShard Nat Nat 2 with
    heap := [eC4m, eC4a, eC4b]
    entries := [(100, 0), (101, 1), (102, 2)]
    small := { head := some 1, tail := some 2, len := 2 }
    main := { head := some 0, tail := some 0, len := 1 }
    warmupComplete := true
    totalEntries := 3 }

/-- Main-queue head with `freq = 0` and `peakFreq = 4`, for the demotion
branch witness. -/
def eC5 : Entry Nat Nat :=
  { key := 9, value := 90, hash := 1009, expiryNano := 0, freq := 0, peakFreq := 4,
    inSmall := false, onDeathRow := false, prev := none, next := none }

/-- Shard whose Main queue holds exactly `eC5`. -/
def sC5 : Shard Nat Nat :=
  { newShard Nat Nat 4 with
    heap := [eC5]
    entries := [(9, 0)]
    main := { head := some 0, tail := some 0, len := 1 }
    warmupComplete := true
    totalEntries := 1 }

/-- Death-row entry for the resurrection witness. -/
def eC6 : Entry Nat Nat :=
  { key := 7, value := 77, hash := 1007, expiryNano := 0, freq := 1, peakFreq := 2,
    inSmall := true, onDeathRow := true, prev := none, next := none }

/-- Shard whose only entry `eC6` sits in death-row slot 0 (still mapped,
linked into neither queue). -/
def sC6 : Shard Nat Nat :=
  { newShard Nat Nat 2 with
    heap := [eC6]
    entries := [(7, 0)]
    deathRow := [some 0, none, none, none, none, none, none, none]
    deathRowPos := 1
    warmupComplete := true
    totalEntries := 0 }

/-- Operation sequence for the frequency-bounds witness: one set and one
hit of key 1. -/
def opsC7 : List (CacheOp Nat Nat) := [.set 1 5 0, .get 0 1]

/-- Entry produced by `opsC7`: one hit bumped `freq` and `peakFreq` to 1. -/
def eC7w : Entry Nat Nat :=
  { key := 1, value := 5, hash := 1001, expiryNano := 0, freq := 1, peakFreq := 1,
    inSmall := true, onDeathRow := false, prev := none, next := none }

/-- Death-row entry for the in-place-update witness of `setWithHash`. -/
def eC10 : Entry Nat Nat :=
  { key := 3, value := 30, hash := 1003, expiryNano := 0, freq := 2, peakFreq := 2,
    inSmall := true, onDeathRow := true, prev := none, next := none }

/-- Shard whose only entry `eC10` sits on death row; a `set` of key 3 must
update it in place without resurrecting it. -/
def sC10 : Shard Nat Nat :=
  { newShard Nat Nat 2 with
    heap := [eC10]
    entries := [(3, 0)]
    deathRow := [some 0, none, none, none, none, none, none, none]
    deathRowPos := 1
    warmupComplete := true
    totalEntries := 0 }

end Multicache

namespace Localfs

/-- Filesystem whose every record file is present but undecodable. -/
def fsC9 : Nat → FileState Nat Nat := fun _ => FileState.corrupt

end Localfs

namespace Multicache

/-- Claim C1 (counterexample): in the capacity-1 shard `sC1pre`, key 1's
entry has the non-zero expiry 5 and sits on death row; a get of key 1 at
wall-clock nanosecond 10 > 5 nevertheless resurrects it and returns
`(11, found = true)`, not the zero value with `found = false` that the
claim requires for every location including death row. -/
theorem c1_counterexample :
    (heapGet sC1pre.heap 0).map (fun e => (e.expiryNano, e.onDeathRow)) = some (5, true) ∧
    (Shard.get sC1pre 10 1).1 = (11, true) := by
  exact ⟨rfl, rfl⟩

/-- Claim C1 (amended): for an entry that is not on death row, a get at any
wall-clock nanosecond strictly past its non-zero `expiryNano` reports not
found, returns the zero value and leaves the shard unchanged.  (A get of an
entry that is on death row instead resurrects it and returns its value, as
the counterexample shows.) -/
theorem c1_amended_expired_get_misses [DecidableEq K] [Inhabited V]
    (s : Shard K V) (now : Int) (key : K) (i : Nat) (e : Entry K V)
    (hm : mapLoad s.entries key = some i)
    (hh : heapGet s.heap i = some e)
    (hdr : e.onDeathRow = false)
    (hex : e.expiryNano ≠ 0)
    (hnow : now > e.expiryNano) :
    Shard.get s now key = ((default, false), s) := by
  unfold Shard.get
  simp only [hm]
  simp only [hh]
  simp [hdr, hex, hnow]

/-- Claim C1 (amended) witness: the concrete live entry of `sC1w` with
expiry 5 reports a miss at wall-clock 10. -/
theorem c1_amended_witness :
    Shard.get sC1w 10 1 = ((default, false), sC1w) :=
  c1_amended_expired_get_misses sC1w 10 1 0 eC1w rfl rfl rfl (by decide) (by decide)

/-- Claim C2 (code bug): the pre-state `sC2pre` satisfies the structural
invariant and key 1's entry (heap id 0) is on death row; `delete 1` then
unlinks that entry from Small although it is linked there no longer, which
nulls Small's head and tail.  Afterwards key 2 is still in the map but its
entry is reachable from none of Small, Main and death row, the invariant
check fails, and the live counter reads 0 although key 2's live entry exists
(the already-dead entry was decremented a second time). -/
theorem c2_delete_death_row_corrupts :
    shardInvariantCheck sC2pre = true ∧
    (heapGet sC2pre.heap 0).map (fun e => e.onDeathRow) = some true ∧
    mapLoad sC2pre.entries 1 = some 0 ∧
    shardInvariantCheck (Shard.delete sC2pre 1) = false ∧
    mapLoad (Shard.delete sC2pre 1).entries 2 = some 1 ∧
    locationCount (Shard.delete sC2pre 1) 1 = 0 ∧
    (Shard.delete sC2pre 1).totalEntries = 0 := by
  exact ⟨rfl, rfl, rfl, rfl, rfl, rfl, rfl⟩

/-- Claim C3 (code bug): the warmed-up capacity-1 shard `sC3pre` has live
count 1; a get of the death-row key 1 resurrects it into Main and raises the
live count to 2 > capacity = 1, with both entries genuinely linked into the
queues (key 2, id 1, in Small and key 1, id 0, in Main). -/
theorem c3_resurrection_exceeds_capacity :
    sC3pre.warmupComplete = true ∧
    sC3pre.capacity = 1 ∧
    sC3pre.totalEntries = 1 ∧
    (Shard.get sC3pre 0 1).2.totalEntries = 2 ∧
    listIds (Shard.get sC3pre 0 1).2 (Shard.get sC3pre 0 1).2.small = [1] ∧
    listIds (Shard.get sC3pre 0 1).2 (Shard.get sC3pre 0 1).2.main = [0] := by
  exact ⟨rfl, rfl, rfl, rfl, rfl, rfl⟩

/-- Claim C4 (counterexample): `sC4` passes the invariant check; Small's
head id 1 is warm (`freq = 2`), and promoting it lifts Main to 2 entries,
above the 90% threshold `⌊2·9/10⌋ = 1`, so the inner `evictFromMain` is
triggered on the first iteration.  Were the claim's "evictFromSmall stops"
right, the procedure's result would be `promoteStep 20 sC4 1`, which still
has one entry (id 2) in Small; the actual result has an empty Small queue
and id 2 on death row — the loop continued. -/
theorem c4_counterexample :
    shardInvariantCheck sC4 = true ∧
    (heapGet sC4.heap 1).map (fun e => e.freq) = some 2 ∧
    (sC4.capacity * 9) / 10 = 1 ∧
    (promoteStep 20 sC4 1).small.len = 1 ∧
    (evictFromSmall 21 sC4).small.len = 0 ∧
    (heapGet (evictFromSmall 21 sC4).heap 2).map (fun e => e.onDeathRow) = some true := by
  exact ⟨rfl, rfl, rfl, rfl, rfl, rfl⟩

/-- Claim C4 (amended): with Small non-empty, `evictFromSmall` inspects the
head `e`: if `e.freq < 2` it is unlinked and sent to death row and the
procedure stops; otherwise it is unlinked, its `freq` set to 0, its
`inSmall` flag cleared and it is pushed to Main's tail, `evictFromMain` is
triggered if Main then exceeds 90% of the shard capacity — and the loop
then continues on the remaining Small queue (the procedure does not stop
there). -/
theorem c4_amended_evictFromSmall_step [DecidableEq K]
    (fuel : Nat) (s : Shard K V) (i : Nat) (e : Entry K V)
    (hlen : 0 < s.small.len)
    (hhead : s.small.head = some i)
    (hget : heapGet s.heap i = some e) :
    (e.freq < 2 → evictFromSmall (fuel + 1) s = smallColdResult s i) ∧
    (2 ≤ e.freq → evictFromSmall (fuel + 1) s = evictFromSmall fuel (promoteStep fuel s i)) := by
  constructor <;> intro hf
  · simp only [evictFromSmall]
    unfold smallColdResult
    simp only [hhead]
    simp only [hget]
    simp [hlen, hf]
  · simp only [evictFromSmall]
    unfold promoteStep
    simp only [hhead]
    simp only [hget]
    simp [hlen, hf, Nat.not_lt.2 hf]

/-- Claim C4 (amended) witness: at the concrete state `sC4` the warm head
id 1 is promoted and the procedure continues as one more `evictFromSmall`
iteration on the stepped state. -/
theorem c4_amended_witness :
    evictFromSmall 3 sC4 = evictFromSmall 2 (promoteStep 2 sC4 1) :=
  (c4_amended_evictFromSmall_step 2 sC4 1 eC4a (by decide) rfl rfl).2 (by decide)

/-- Claim C5: with Main non-empty, `evictFromMain` inspects the head `e`:
if `e.freq = 0` and `e.peakFreq ≥ 4` it is unlinked, its `freq` set to 1,
its `inSmall` flag set, pushed to Small's tail and the procedure stops
(`demoteResult`); if `e.freq = 0` and `e.peakFreq < 4` it is unlinked, sent
to death row and the procedure stops (`mainColdResult`); if `e.freq > 0` it
is unlinked, its `freq` decremented, pushed back to Main's tail and the
loop continues (`secondChanceStep`). -/
theorem c5_evictFromMain_cases [DecidableEq K]
    (fuel : Nat) (s : Shard K V) (i : Nat) (e : Entry K V)
    (hlen : 0 < s.main.len)
    (hhead : s.main.head = some i)
    (hget : heapGet s.heap i = some e) :
    (e.freq = 0 → 4 ≤ e.peakFreq → evictFromMain (fuel + 1) s = demoteResult s i) ∧
    (e.freq = 0 → e.peakFreq < 4 → evictFromMain (fuel + 1) s = mainColdResult s i) ∧
    (0 < e.freq →
      evictFromMain (fuel + 1) s = evictFromMain fuel (secondChanceStep s i e.freq)) := by
  refine ⟨fun hf hp => ?_, fun hf hp => ?_, fun hf => ?_⟩
  · simp only [evictFromMain]
    unfold demoteResult
    simp only [hhead]
    simp only [hget]
    simp [hlen, hf, hp]
  · simp only [evictFromMain]
    unfold mainColdResult
    simp only [hhead]
    simp only [hget]
    simp [hlen, hf, Nat.not_le.2 hp]
  · simp only [evictFromMain]
    unfold secondChanceStep
    simp only [hhead]
    simp only [hget]
    simp [hlen, Nat.pos_iff_ne_zero.1 hf]

/-- Claim C5 witness: the concrete Main head `eC5` (`freq = 0`,
`peakFreq = 4`) is demoted to Small and the procedure stops. -/
theorem c5_witness :
    evictFromMain 1 sC5 = demoteResult sC5 0 :=
  (c5_evictFromMain_cases 0 sC5 0 eC5 (by decide) rfl rfl).1 rfl (by decide)

/-- Claim C6: a get of a key whose entry is on death row resurrects it —
the first death-row slot holding the entry is cleared, the entry's
`onDeathRow` and `inSmall` flags are cleared, its `freq` and `peakFreq` are
set to 3, it is pushed to Main's tail, the global live count is incremented
by 1, and the call returns the entry's value with found = true. -/
theorem c6_get_resurrects [DecidableEq K] [Inhabited V]
    (s : Shard K V) (now : Int) (key : K) (i : Nat) (e : Entry K V)
    (hm : mapLoad s.entries key = some i)
    (hh : heapGet s.heap i = some e)
    (hdr : e.onDeathRow = true) :
    Shard.get s now key =
      ((e.value, true),
       { s with
         heap := (pushBack (updateEntry s.heap i resurrectUpd) s.main i).1
         deathRow := clearFirstSlot s.deathRow i
         main := (pushBack (updateEntry s.heap i resurrectUpd) s.main i).2
         totalEntries := s.totalEntries + 1 }) := by
  unfold Shard.get resurrectFromDeathRow resurrectUpd
  simp only [hm]
  simp only [hh]
  simp [hdr]

/-- Claim C6 witness at the concrete death-row entry `eC6` of `sC6`. -/
theorem c6_witness :
    Shard.get sC6 0 7 =
      ((77, true),
       { sC6 with
         heap := (pushBack (updateEntry sC6.heap 0 resurrectUpd) sC6.main 0).1
         deathRow := clearFirstSlot sC6.deathRow 0
         main := (pushBack (updateEntry sC6.heap 0 resurrectUpd) sC6.main 0).2
         totalEntries := sC6.totalEntries + 1 }) :=
  c6_get_resurrects sC6 0 7 0 eC6 rfl rfl rfl

/-- Claim C10: a `setWithHash` on a key already present only rewrites that
entry's record in the heap — the new record keeps the entry's links, queue
flag, death-row flag and key, changing only `value`, `expiryNano` and the
bumped `freq`/`peakFreq`; since no other shard field is touched, membership
and position in Small, Main and the death-row ring, and the global live
count, are all unchanged, no eviction runs, and a death-row entry is not
resurrected. -/
theorem c10_set_existing_updates_in_place [DecidableEq K]
    (hasher : K → Nat) (s : Shard K V) (key : K) (v : V) (exp : Int) (hash : Nat)
    (i : Nat) (e : Entry K V)
    (hm : mapLoad s.entries key = some i)
    (hh : heapGet s.heap i = some e) :
    setWithHash hasher s key v exp hash =
      { s with heap := s.heap.set i (bumpFreq { e with value := v, expiryNano := exp }) } ∧
    (bumpFreq { e with value := v, expiryNano := exp }).inSmall = e.inSmall ∧
    (bumpFreq { e with value := v, expiryNano := exp }).onDeathRow = e.onDeathRow ∧
    (bumpFreq { e with value := v, expiryNano := exp }).prev = e.prev ∧
    (bumpFreq { e with value := v, expiryNano := exp }).next = e.next ∧
    (bumpFreq { e with value := v, expiryNano := exp }).key = e.key := by
  refine ⟨?_, ?_, ?_, ?_, ?_, ?_⟩
  · have hh2 : s.heap[i]? = some e := hh
    unfold setWithHash updateEntry
    simp only [hm]
    simp only [hh2]
  · unfold bumpFreq
    dsimp only
    split <;> (try split) <;> rfl
  · unfold bumpFreq
    dsimp only
    split <;> (try split) <;> rfl
  · unfold bumpFreq
    dsimp only
    split <;> (try split) <;> rfl
  · unfold bumpFreq
    dsimp only
    split <;> (try split) <;> rfl
  · unfold bumpFreq
    dsimp only
    split <;> (try split) <;> rfl

/-- Claim C10 witness: updating the death-row key 3 of `sC10` in place. -/
theorem c10_witness :
    setWithHash natHasher sC10 3 99 7 0 =
      { sC10 with heap := sC10.heap.set 0 (bumpFreq { eC10 with value := 99, expiryNano := 7 }) } :=
  (c10_set_existing_updates_in_place natHasher sC10 3 99 7 0 0 eC10 rfl rfl).1

end Multicache

namespace Localfs

/-- Claim C8 (counterexample): `ValidateKey` accepts the empty key, although
the claim requires an error for every empty key. -/
theorem c8_counterexample : ValidateKey [] = Except.ok () := rfl

/-- Helper: the character scan of `ValidateKey` finds no offender exactly
when every character of the key is allowed. -/
theorem findInvalidChar_eq_none_iff (key : List Char) :
    findInvalidChar key = none ↔ ∀ c ∈ key, invalidCharB c = false := by
  induction key with
  | nil => simp [findInvalidChar]
  | cons c rest ih =>
      by_cases hc : invalidCharB c
      · simp [findInvalidChar, hc]
      · simp [findInvalidChar, hc, ih, Bool.eq_false_iff.2 hc]

/-- Claim C8 (amended): `ValidateKey` accepts a key exactly when its textual
form is at most 127 bytes long and every character is a letter, digit, dash,
underscore, period or colon.  The empty key is accepted: the source has no
non-emptiness check. -/
theorem c8_amended_validate_key_iff (key : List Char) :
    ValidateKey key = Except.ok () ↔
      goLen key ≤ maxKeyLength ∧ ∀ c ∈ key, invalidCharB c = false := by
  unfold ValidateKey
  by_cases hl : goLen key > maxKeyLength
  · simp [hl, Nat.not_le.2 hl]
  · rw [if_neg hl]
    rcases hfind : findInvalidChar key with _ | c
    · constructor
      · intro _
        exact ⟨Nat.not_lt.1 hl, (findInvalidChar_eq_none_iff key).1 hfind⟩
      · intro _
        rfl
    · constructor
      · intro h
        exact absurd h (by simp)
      · rintro ⟨-, hall⟩
        exact absurd (((findInvalidChar_eq_none_iff key).2 hall).symm.trans hfind) (by simp)

/-- Claim C9 (counterexample): a `Get` of a key whose record file fails to
decode reports not found but also returns the decode error — it fails
rather than silently missing — while the bad file is deleted. -/
theorem c9_counterexample :
    (Get fsC9 0 1).1.found = false ∧
    (Get fsC9 0 1).1.err = some StoreErr.decodeFailed ∧
    (Get fsC9 0 1).2 1 = FileState.absent := by
  exact ⟨rfl, rfl, rfl⟩

/-- Claim C9 (amended): when the stored record fails to decode, `Get`
reports the key as not found with the zero value, best-effort deletes the
bad record's file (other keys' files untouched), and returns the decode
error to the caller rather than succeeding silently. -/
theorem c9_amended_corrupt_get [DecidableEq K] [Inhabited V]
    (fs : K → FileState K V) (now : Int) (key : K)
    (hc : fs key = FileState.corrupt) :
    (Get fs now key).1.value = (default : V) ∧
    (Get fs now key).1.found = false ∧
    (Get fs now key).1.err = some StoreErr.decodeFailed ∧
    (Get fs now key).2 key = FileState.absent ∧
    ∀ k, k ≠ key → (Get fs now key).2 k = fs k := by
  unfold Get
  rw [hc]
  refine ⟨rfl, rfl, rfl, by simp, fun k hk => by simp [hk]⟩

/-- Claim C9 (amended) witness at the all-corrupt filesystem `fsC9`. -/
theorem c9_amended_witness :
    (Get fsC9 0 1).1.value = (default : Nat) ∧
    (Get fsC9 0 1).1.found = false ∧
    (Get fsC9 0 1).1.err = some StoreErr.decodeFailed ∧
    (Get fsC9 0 1).2 1 = FileState.absent ∧
    ∀ k, k ≠ 1 → (Get fsC9 0 1).2 k = fsC9 k :=
  c9_amended_corrupt_get fsC9 0 1 rfl

end Localfs

namespace Multicache

/-- Helper: an entry read from the heap satisfies the heap-wide frequency
bounds. -/
theorem freqInvE_of_heapFreqInv {heap : List (Entry K V)} (h : HeapFreqInv heap)
    {i : Nat} {e : Entry K V} (hh : heap[i]? = some e) : FreqInvE e :=
  h e (List.getElem?_mem hh)

/-- Helper: a heap write preserves the frequency bounds when the written
record satisfies them (given what was stored at the written id). -/
theorem heapFreqInv_updateEntry {heap : List (Entry K V)} {i : Nat}
    {f : Entry K V → Entry K V} (h : HeapFreqInv heap)
    (hf : ∀ e, heap[i]? = some e → FreqInvE (f e)) :
    HeapFreqInv (updateEntry heap i f) := by
  unfold updateEntry
  cases hx : heap[i]? with
  | none => exact h
  | some e =>
      intro x hxmem
      rcases List.mem_or_eq_of_mem_set hxmem with hmem | hx2
      · exact h x hmem
      · rw [hx2]
        exact hf e hx

/-- Helper: a heap write with a pointwise bounds-preserving update function
preserves the heap-wide frequency bounds. -/
theorem heapFreqInv_updateEntry_pt {heap : List (Entry K V)} {i : Nat}
    {f : Entry K V → Entry K V} (h : HeapFreqInv heap)
    (hf : ∀ e, FreqInvE e → FreqInvE (f e)) :
    HeapFreqInv (updateEntry heap i f) :=
  heapFreqInv_updateEntry h (fun e he => hf e (freqInvE_of_heapFreqInv h he))

/-- Helper: `pushBack` touches only link fields and preserves the heap-wide
frequency bounds. -/
theorem heapFreqInv_pushBack {heap : List (Entry K V)} {l : EntryList} {i : Nat}
    (h : HeapFreqInv heap) : HeapFreqInv (pushBack heap l i).1 := by
  unfold pushBack
  cases l.tail with
  | some t =>
      exact heapFreqInv_updateEntry_pt
        (heapFreqInv_updateEntry_pt h (fun e he => he)) (fun e he => he)
  | none =>
      exact heapFreqInv_updateEntry_pt h (fun e he => he)

/-- Helper: `removeFromList` touches only link fields and preserves the
heap-wide frequency bounds. -/
theorem heapFreqInv_removeFromList {heap : List (Entry K V)} {l : EntryList} {i : Nat}
    (h : HeapFreqInv heap) : HeapFreqInv (removeFromList heap l i).1 := by
  unfold removeFromList
  cases hx : heapGet heap i with
  | none => exact h
  | some e =>
      dsimp only
      cases e.prev <;> cases e.next <;> dsimp only <;>
        refine heapFreqInv_updateEntry_pt ?_ (fun x hx => hx) <;>
        first
          | exact h
          | exact heapFreqInv_updateEntry_pt h (fun x hx => hx)
          | exact heapFreqInv_updateEntry_pt
              (heapFreqInv_updateEntry_pt h (fun x hx => hx)) (fun x hx => hx)

end Multicache

namespace Multicache

/-- Helper: a heap write whose update function keeps `freq` and `peakFreq`
leaves the frequency fields of every id unchanged. -/
theorem freqPair_updateEntry {heap : List (Entry K V)} {i : Nat}
    {f : Entry K V → Entry K V} (hf : ∀ e, freqPair (f e) = freqPair e) (j : Nat) :
    ((updateEntry heap i f)[j]?).map freqPair = (heap[j]?).map freqPair := by
  unfold updateEntry
  cases hx : heap[i]? with
  | none => rfl
  | some e =>
      rw [List.getElem?_set]
      by_cases hij : i = j
      · subst hij
        have hlen : i < heap.length := by
          by_contra hge
          rw [List.getElem?_eq_none (Nat.le_of_not_lt hge)] at hx
          exact Option.noConfusion hx
        simp [hlen, hx, hf]
      · simp [hij]

/-- Helper: `pushBack` leaves the frequency fields of every id unchanged. -/
theorem freqPair_pushBack {heap : List (Entry K V)} {l : EntryList} {i : Nat} (j : Nat) :
    (((pushBack heap l i).1)[j]?).map freqPair = (heap[j]?).map freqPair := by
  unfold pushBack
  cases l.tail with
  | some t =>
      dsimp only
      refine Eq.trans (freqPair_updateEntry ?_ j) (freqPair_updateEntry ?_ j) <;>
        exact fun e => rfl
  | none =>
      dsimp only
      refine freqPair_updateEntry ?_ j
      exact fun e => rfl

/-- Helper: `removeFromList` leaves the frequency fields of every id
unchanged. -/
theorem freqPair_removeFromList {heap : List (Entry K V)} {l : EntryList} {i : Nat} (j : Nat) :
    (((removeFromList heap l i).1)[j]?).map freqPair = (heap[j]?).map freqPair := by
  unfold removeFromList
  cases hx : heapGet heap i with
  | none => rfl
  | some e =>
      dsimp only
      cases e.prev <;> cases e.next <;> dsimp only <;>
        first
          | refine freqPair_updateEntry ?_ j
          | refine Eq.trans (freqPair_updateEntry ?_ j) (freqPair_updateEntry ?_ j)
          | refine Eq.trans (freqPair_updateEntry ?_ j)
              (Eq.trans (freqPair_updateEntry ?_ j) (freqPair_updateEntry ?_ j))
      all_goals exact fun x => rfl

/-- Helper: adding a capped frequency to the ghost ring preserves the ring
bounds. -/
theorem ringFreqInv_add {r : GhostFreqRing} {h f : Nat}
    (hr : RingFreqInv r) (hf : f ≤ maxFreq) : RingFreqInv (r.add h f) := by
  unfold GhostFreqRing.add
  intro x hx
  rcases List.mem_or_eq_of_mem_set hx with hmem | hx2
  · exact hr x hmem
  · rw [hx2]
    exact hf

/-- Helper: a ghost-ring lookup returns a capped frequency. -/
theorem ringLookup_le {r : GhostFreqRing} {h f : Nat}
    (hr : RingFreqInv r) (hl : r.lookup h = some f) : f ≤ maxFreq := by
  unfold GhostFreqRing.lookup at hl
  rcases Option.map_eq_some'.1 hl with ⟨p, hp, hpf⟩
  rw [← hpf]
  exact hr p.2 (List.of_mem_zip (List.mem_of_find?_eq_some hp)).2

/-- Helper: `addToGhost` preserves the frequency bounds when the recorded
peak frequency is capped (it never touches the heap). -/
theorem freqInv_addToGhost [DecidableEq K] {s : Shard K V} (h pf : Nat)
    (hs : FreqInv s) (hpf : pf ≤ maxFreq) : FreqInv (addToGhost s h pf) := by
  unfold addToGhost
  have rot : ∀ s2 : Shard K V, FreqInv s2 →
      FreqInv (if s2.ghostActive.entries ≥ s2.ghostCap then
        { s2 with ghostActive := BloomFilter.reset, ghostAging := s2.ghostActive }
      else s2) := by
    intro s2 h2
    split
    · exact ⟨h2.1, h2.2⟩
    · exact h2
  apply rot
  split
  · exact hs
  · split
    · exact ⟨hs.1, ringFreqInv_add hs.2 hpf⟩
    · exact ⟨hs.1, hs.2⟩

/-- Helper: `sendToDeathRow` preserves the frequency bounds. -/
theorem freqInv_sendToDeathRow [DecidableEq K] {s : Shard K V} {i : Nat}
    (hs : FreqInv s) : FreqInv (sendToDeathRow s i) := by
  unfold sendToDeathRow
  have final : ∀ s1 : Shard K V, FreqInv s1 →
      FreqInv { s1 with
        heap := updateEntry s1.heap i (fun x => { x with onDeathRow := true })
        deathRow := s1.deathRow.set s1.deathRowPos (some i)
        deathRowPos := (s1.deathRowPos + 1) % s1.deathRow.length
        totalEntries := s1.totalEntries - 1 } := by
    intro s1 h1
    exact ⟨heapFreqInv_updateEntry_pt h1.1 (fun x hx => hx), h1.2⟩
  apply final
  cases hslot : s.deathRow.getD s.deathRowPos none with
  | none => exact hs
  | some oldId =>
      dsimp only
      cases hold : heapGet s.heap oldId with
      | none => exact hs
      | some o =>
          dsimp only
          have ho : FreqInvE o := freqInvE_of_heapFreqInv hs.1 hold
          have hA : FreqInv ({ s with entries := mapDelete s.entries o.key } : Shard K V) :=
            ⟨hs.1, hs.2⟩
          have hB := freqInv_addToGhost o.hash o.peakFreq hA ho.2.2
          exact ⟨heapFreqInv_updateEntry_pt hB.1 (fun x hx => hx), hB.2⟩

end Multicache

namespace Multicache

/-- Helper: `evictFromMain` preserves the frequency bounds. -/
theorem freqInv_evictFromMain [DecidableEq K] (fuel : Nat) :
    ∀ (s : Shard K V), FreqInv s → FreqInv (evictFromMain fuel s) := by
  induction fuel with
  | zero => intro s hs; exact hs
  | succ n ih =>
      intro s hs
      simp only [evictFromMain]
      split
      · cases hhead : s.main.head with
        | none => exact hs
        | some i =>
            dsimp only
            cases hget : heapGet s.heap i with
            | none => exact hs
            | some e =>
                dsimp only
                have hget2 : s.heap[i]? = some e := hget
                have he : FreqInvE e := freqInvE_of_heapFreqInv hs.1 hget2
                have hrm : HeapFreqInv (removeFromList s.heap s.main i).1 :=
                  heapFreqInv_removeFromList hs.1
                have hfp : (((removeFromList s.heap s.main i).1)[i]?).map freqPair =
                    some (freqPair e) := by
                  rw [@freqPair_removeFromList K V s.heap s.main i i, hget2]
                  rfl
                by_cases hf : e.freq = 0
                · rw [if_pos hf]
                  by_cases hp : e.peakFreq ≥ 4
                  · rw [if_pos hp]
                    refine ⟨heapFreqInv_pushBack (heapFreqInv_updateEntry hrm ?_), hs.2⟩
                    intro x hx
                    rw [hx] at hfp
                    have hxe : x.peakFreq = e.peakFreq :=
                      congrArg Prod.snd (Option.some.inj hfp)
                    have h1 : (1 : Nat) ≤ maxFreq := by decide
                    have h2 : (1 : Nat) ≤ x.peakFreq := by
                      rw [hxe]
                      exact Nat.le_trans (by decide) hp
                    have h3 : x.peakFreq ≤ maxFreq := by
                      rw [hxe]
                      exact he.2.2
                    exact ⟨h1, h2, h3⟩
                  · rw [if_neg hp]
                    exact freqInv_sendToDeathRow ⟨hrm, hs.2⟩
                · rw [if_neg hf]
                  refine ih _ ⟨heapFreqInv_pushBack (heapFreqInv_updateEntry hrm ?_), hs.2⟩
                  intro x hx
                  rw [hx] at hfp
                  have hxe : x.peakFreq = e.peakFreq :=
                    congrArg Prod.snd (Option.some.inj hfp)
                  have h1 : e.freq - 1 ≤ maxFreq := Nat.le_trans (Nat.sub_le _ _) he.1
                  have h2 : e.freq - 1 ≤ x.peakFreq := by
                    rw [hxe]
                    exact Nat.le_trans (Nat.sub_le _ _) he.2.1
                  have h3 : x.peakFreq ≤ maxFreq := by
                    rw [hxe]
                    exact he.2.2
                  exact ⟨h1, h2, h3⟩
      · exact hs

/-- Helper: `evictFromSmall` preserves the frequency bounds. -/
theorem freqInv_evictFromSmall [DecidableEq K] (fuel : Nat) :
    ∀ (s : Shard K V), FreqInv s → FreqInv (evictFromSmall fuel s) := by
  induction fuel with
  | zero => intro s hs; exact hs
  | succ n ih =>
      intro s hs
      simp only [evictFromSmall]
      split
      · cases hhead : s.small.head with
        | none => exact hs
        | some i =>
            dsimp only
            cases hget : heapGet s.heap i with
            | none => exact hs
            | some e =>
                dsimp only
                have hrm : HeapFreqInv (removeFromList s.heap s.small i).1 :=
                  heapFreqInv_removeFromList hs.1
                by_cases hf : e.freq < 2
                · rw [if_pos hf]
                  exact freqInv_sendToDeathRow ⟨hrm, hs.2⟩
                · rw [if_neg hf]
                  refine ih _ ?_
                  have hprom : FreqInv ({ s with
                      heap := (pushBack (updateEntry (removeFromList s.heap s.small i).1 i
                        (fun x => { x with freq := 0, inSmall := false })) s.main i).1
                      small := (removeFromList s.heap s.small i).2
                      main := (pushBack (updateEntry (removeFromList s.heap s.small i).1 i
                        (fun x => { x with freq := 0, inSmall := false })) s.main i).2 } : Shard K V) := by
                    refine ⟨heapFreqInv_pushBack (heapFreqInv_updateEntry hrm ?_), hs.2⟩
                    intro x hx
                    have hxI := freqInvE_of_heapFreqInv hrm hx
                    exact ⟨Nat.zero_le _, Nat.zero_le _, hxI.2.2⟩
                  split
                  · exact freqInv_evictFromMain n _ hprom
                  · exact hprom
      · exact hs

end Multicache

namespace Multicache

/-- Helper: the hit-path frequency bump preserves an entry's bounds. -/
theorem freqInvE_bumpFreq {e : Entry K V} (he : FreqInvE e) : FreqInvE (bumpFreq e) := by
  unfold bumpFreq
  by_cases hf : e.freq < maxFreq
  · rw [if_pos hf]
    dsimp only
    by_cases hp : e.freq + 1 > e.peakFreq
    · rw [if_pos hp]
      exact ⟨hf, Nat.le_refl _, hf⟩
    · rw [if_neg hp]
      exact ⟨hf, Nat.not_lt.1 hp, he.2.2⟩
  · rw [if_neg hf]
    exact he

/-- Helper: `resurrectFromDeathRow` preserves the frequency bounds. -/
theorem freqInv_resurrect [DecidableEq K] [Inhabited V] {s : Shard K V} (key : K)
    (hs : FreqInv s) : FreqInv (resurrectFromDeathRow s key).2 := by
  unfold resurrectFromDeathRow
  cases hm : mapLoad s.entries key with
  | none => exact hs
  | some i =>
      dsimp only
      cases hget : heapGet s.heap i with
      | none => exact hs
      | some e =>
          dsimp only
          split
          · refine ⟨heapFreqInv_pushBack (heapFreqInv_updateEntry_pt hs.1 ?_), hs.2⟩
            intro x hx
            have h37 : (3 : Nat) ≤ maxFreq := by decide
            exact ⟨h37, Nat.le_refl 3, h37⟩
          · exact hs

/-- Helper: `Shard.get` preserves the frequency bounds. -/
theorem freqInv_get [DecidableEq K] [Inhabited V] {s : Shard K V} (now : Int) (key : K)
    (hs : FreqInv s) : FreqInv (Shard.get s now key).2 := by
  unfold Shard.get
  cases hm : mapLoad s.entries key with
  | none => exact hs
  | some i =>
      dsimp only
      cases hget : heapGet s.heap i with
      | none => exact hs
      | some e =>
          dsimp only
          split
          · exact freqInv_resurrect key hs
          · split
            · exact hs
            · exact ⟨heapFreqInv_updateEntry_pt hs.1 (fun x hx => freqInvE_bumpFreq hx), hs.2⟩

/-- Helper: the warmup insert preserves the frequency bounds. -/
theorem freqInv_warmupInsert [DecidableEq K] {s0 : Shard K V} (key : K) (newId : Nat)
    (hs : FreqInv s0) : FreqInv (warmupInsert s0 key newId) :=
  ⟨heapFreqInv_pushBack (heapFreqInv_updateEntry_pt hs.1 (fun x hx => hx)), hs.2⟩

/-- Helper: ghost admission plus the eviction pass preserves the frequency
bounds (a ghost-restored frequency comes from the ring, hence is capped). -/
theorem freqInv_ghostAdmitAndEvict [DecidableEq K] {s1 : Shard K V} (h newId : Nat)
    (hs : FreqInv s1) : FreqInv (ghostAdmitAndEvict s1 h newId) := by
  unfold ghostAdmitAndEvict
  have hfin : ∀ sB : Shard K V, FreqInv sB →
      FreqInv (if sB.main.len > 0 && sB.small.len ≤ (sB.smallThresh : Int) then
          evictFromMain (evictFuel sB) sB
        else if sB.small.len > 0 then evictFromSmall (evictFuel sB) sB
        else sB) := by
    intro sB hB
    split
    · exact freqInv_evictFromMain _ _ hB
    · split
      · exact freqInv_evictFromSmall _ _ hB
      · exact hB
  apply hfin
  split
  · split
    · rename_i peak hlook
      refine ⟨heapFreqInv_updateEntry_pt
        (heapFreqInv_updateEntry_pt hs.1 (fun x hx => hx)) ?_, hs.2⟩
      intro x hx
      have hle : peak ≤ maxFreq := ringLookup_le hs.2 hlook
      exact ⟨hle, Nat.le_refl _, hle⟩
    · exact ⟨heapFreqInv_updateEntry_pt hs.1 (fun x hx => hx), hs.2⟩
  · exact ⟨heapFreqInv_updateEntry_pt hs.1 (fun x hx => hx), hs.2⟩


/-- Helper: the final insert of a new entry preserves the frequency
bounds. -/
theorem freqInv_finishInsert [DecidableEq K] {s2 : Shard K V} (ent : Entry K V)
    (key : K) (newId : Nat) (hs : FreqInv s2) : FreqInv (finishInsert s2 ent key newId) := by
  unfold finishInsert
  dsimp only
  split
  · exact ⟨heapFreqInv_pushBack hs.1, hs.2⟩
  · exact ⟨heapFreqInv_pushBack hs.1, hs.2⟩

/-- Helper: `setWithHash` preserves the frequency bounds (a new entry starts
at frequency 0). -/
theorem freqInv_setWithHash [DecidableEq K] (hasher : K → Nat) {s : Shard K V}
    (key : K) (value : V) (expiryNano : Int) (hash : Nat)
    (hs : FreqInv s) : FreqInv (setWithHash hasher s key value expiryNano hash) := by
  unfold setWithHash
  cases hm : mapLoad s.entries key with
  | some i =>
      dsimp only
      exact ⟨heapFreqInv_updateEntry_pt hs.1 (fun x hx => freqInvE_bumpFreq hx), hs.2⟩
  | none =>
      dsimp only
      have hs0 : HeapFreqInv (s.heap ++
          [({ key := key, value := value,
              hash := if hash = 0 then hasher key else hash, expiryNano := expiryNano,
              freq := 0, peakFreq := 0, inSmall := false, onDeathRow := false,
              prev := none, next := none } : Entry K V)]) := by
        intro x hx
        rcases List.mem_append.1 hx with hmem | hmem
        · exact hs.1 x hmem
        · rw [List.mem_singleton.1 hmem]
          exact ⟨Nat.zero_le _, Nat.le_refl _, Nat.zero_le _⟩
      split
      · refine freqInv_warmupInsert key s.heap.length ?_
        exact ⟨hs0, hs.2⟩
      · refine freqInv_finishInsert _ key s.heap.length ?_
        split
        · refine freqInv_ghostAdmitAndEvict _ s.heap.length ?_
          exact ⟨hs0, hs.2⟩
        · exact ⟨heapFreqInv_updateEntry_pt hs0 (fun x hx => hx), hs.2⟩

/-- Helper: `Shard.delete` preserves the frequency bounds. -/
theorem freqInv_delete [DecidableEq K] {s : Shard K V} (key : K)
    (hs : FreqInv s) : FreqInv (Shard.delete s key) := by
  unfold Shard.delete
  cases hm : mapLoad s.entries key with
  | none => exact hs
  | some i =>
      dsimp only
      cases hget : heapGet s.heap i with
      | none => exact hs
      | some e =>
          dsimp only
          split
          · exact ⟨heapFreqInv_removeFromList hs.1, hs.2⟩
          · exact ⟨heapFreqInv_removeFromList hs.1, hs.2⟩

/-- Helper: `Shard.flush` preserves the frequency bounds (the ring is
zeroed, the heap untouched). -/
theorem freqInv_flush {s : Shard K V} (hs : FreqInv s) : FreqInv (Shard.flush s) := by
  refine ⟨hs.1, ?_⟩
  intro f hf
  rw [List.eq_of_mem_replicate hf]
  exact Nat.zero_le _

/-- Helper: every public operation preserves the frequency bounds. -/
theorem freqInv_stepOp [DecidableEq K] [Inhabited V] (hasher : K → Nat)
    {s : Shard K V} (op : CacheOp K V) (hs : FreqInv s) : FreqInv (stepOp hasher s op) := by
  cases op with
  | set k v e => exact freqInv_setWithHash hasher k v e 0 hs
  | get now k => exact freqInv_get now k hs
  | del k => exact freqInv_delete k hs
  | flush => exact freqInv_flush hs

/-- Helper: any sequence of public operations preserves the frequency
bounds. -/
theorem freqInv_runOps [DecidableEq K] [Inhabited V] (hasher : K → Nat)
    (ops : List (CacheOp K V)) :
    ∀ (s : Shard K V), FreqInv s → FreqInv (runOps hasher s ops) := by
  induction ops with
  | nil => intro s hs; exact hs
  | cons op rest ih =>
      intro s hs
      exact ih _ (freqInv_stepOp hasher op hs)

/-- Helper: a fresh shard satisfies the frequency bounds. -/
theorem freqInv_newShard (K V : Type) (capacity : Nat) : FreqInv (newShard K V capacity) := by
  constructor
  · intro e he
    exact absurd he (List.not_mem_nil e)
  · intro f hf
    rw [List.eq_of_mem_replicate hf]
    exact Nat.zero_le _


/-- Claim C7: after any sequence of sequentially executed public operations
(set, get — including resurrection and the frequency bump — delete, flush,
with the evictions they trigger) on a freshly constructed shard, every entry
reachable through the shard's key map satisfies `0 ≤ freq ≤ 7` and
`freq ≤ peakFreq ≤ 7` (the lower bound is inherent in the `Nat` model of the
unsigned counters). -/
theorem c7_freq_bounds [DecidableEq K] [Inhabited V] (hasher : K → Nat) (capacity : Nat)
    (ops : List (CacheOp K V)) (key : K) (i : Nat) (e : Entry K V)
    (hm : mapLoad (runOps hasher (newShard K V capacity) ops).entries key = some i)
    (hh : heapGet (runOps hasher (newShard K V capacity) ops).heap i = some e) :
    e.freq ≤ maxFreq ∧ e.freq ≤ e.peakFreq ∧ e.peakFreq ≤ maxFreq :=
  freqInvE_of_heapFreqInv
    (freqInv_runOps hasher ops (newShard K V capacity) (freqInv_newShard K V capacity)).1 hh

/-- Claim C7 witness: after one set and one hit of key 1, the mapped entry
`eC7w` has `freq = peakFreq = 1`, within bounds. -/
theorem c7_witness :
    eC7w.freq ≤ maxFreq ∧ eC7w.freq ≤ eC7w.peakFreq ∧ eC7w.peakFreq ≤ maxFreq :=
  c7_freq_bounds natHasher 4 opsC7 1 0 eC7w rfl rfl

end Multicache
